import Mathlib

/-!
Verification of the Monopoly steady-state simulator
(`src/SteadyState/GenerateDataForSimulation.py`).

The source has two parts:
* `MonopolySimulation.generate_transition_matrix` builds a 40x40 transition
  matrix from the two-dice distribution, with special handling for the
  "Go To Jail" square, Community-Chest squares, Chance squares, and a
  per-roll-iteration triple-doubles jail term.
* `MonopolySimulation.move` samples the Markov chain: it re-normalizes the
  current row, draws a next square, bumps the landing counter and, every
  100 moves, snapshots the counters into `move_history`.

We embed the matrix construction exactly, over `ℚ` (the Python floats are
all small dyadic-by-1728 rationals, so exact rational arithmetic reproduces
the mathematical content; floating-point rounding is noise of order 2^-50,
far below every tolerance discussed here).  The accumulation loop
`for from_square: for roll: matrix[i][j] += ...` is embedded by giving the
per-iteration increments (`doublesContrib`, `rollContrib`) and summing them
over the roll loop, which is the value the accumulated cell holds when the
loop finishes.

The sampler is embedded as a state machine parametrised by the stream of
uniform draws in `[0,1)` that the pseudo-random source produces; the
categorical draw `np.random.choice(range(40), p=row)` is embedded as the
standard inverse-CDF search over that uniform draw (the spec, §9, fixes
this as the intended portable implementation of the sampler).
-/

/-- Board size: 40 squares, indices 0..39. -/
def BOARD_SIZE : ℕ := 40

/-- Jail is square 10. -/
def JAIL_SQUARE : ℕ := 10

/-- "Go To Jail" is square 30. -/
def GO_TO_JAIL_SQUARE : ℕ := 30

/-- The three Community-Chest squares. -/
def COMMUNITY_CHEST : List ℕ := [2, 17, 33]

/-- The three Chance squares. -/
def CHANCE : List ℕ := [7, 22, 36]

/-- The four station squares. -/
def STATIONS : List ℕ := [5, 15, 25, 35]

/-- The two utility squares. -/
def UTILITIES : List ℕ := [12, 28]

/-- The 40 board-square names, in board order (`board_spaces` in the source). -/
def board_spaces : List String :=
  [ "GO", "Old Kent Road", "Community Chest 1", "Whitechapel Road", "Income Tax",
    "Kings Cross Station", "The Angel Islington", "Chance 1", "Euston Road", "Pentonville Road",
    "Jail", "Pall Mall", "Electric Company", "Whitehall", "Northumberland Avenue",
    "Marylebone Station", "Bow Street", "Community Chest 2", "Marlborough Street", "Vine Street",
    "Free Parking", "Strand", "Chance 2", "Fleet Street", "Trafalgar Square",
    "Fenchurch St Station", "Leicester Square", "Coventry Street", "Water Works", "Piccadilly",
    "Go To Jail", "Regent Street", "Oxford Street", "Community Chest 3", "Bond Street",
    "Liverpool St Station", "Chance 3", "Park Lane", "Super Tax", "Mayfair" ]

/-- `calculate_dice_probabilities`: probability that two independent fair
six-sided dice sum to `s` — the count of pairs `(die1, die2)` with
`die1 + die2 = s`, divided by 36.  (Indices 0 and 1 of the Python list are
never touched by the division loop and stay `0`; the formula below also
gives `0` there.) -/
def dice_probs (s : ℕ) : ℚ :=
  (∑ die1 in Finset.Icc 1 6, ∑ die2 in Finset.Icc 1 6,
    if die1 + die2 = s then (1 : ℚ) else 0) / 36

/-- `next((s for s in self.STATIONS if s > to_square), self.STATIONS[0])`:
the first station with index strictly greater than `d`, falling back to the
first station (index 5) when none remains. -/
def nearest_station (d : ℕ) : ℕ :=
  ((STATIONS.find? (fun s => decide (d < s))).getD 5)

/-- `next((u for u in self.UTILITIES if u > to_square), self.UTILITIES[0])`:
the first utility with index strictly greater than `d`, falling back to the
first utility (index 12) when none remains. -/
def nearest_utility (d : ℕ) : ℕ :=
  ((UTILITIES.find? (fun u => decide (d < u))).getD 12)

/-- The amount the iteration `(from_square = i, roll = r)` of the
construction loop adds to `matrix[i][j]` through the line

    if from_square != self.GO_TO_JAIL_SQUARE:
        matrix[from_square][self.JAIL_SQUARE] += pow(1/12, 3)

(the triple-doubles jail term, added once per roll iteration).  The roll
parameter is unused by the body, exactly as in the source. -/
def doublesContrib (i _r j : ℕ) : ℚ :=
  if i ≠ GO_TO_JAIL_SQUARE ∧ j = JAIL_SQUARE then (1/12 : ℚ)^3 else 0

/-- The amount the iteration `(from_square = i, roll = r)` of the
construction loop adds to `matrix[i][j]` through the dice-destination
branches (Go-To-Jail / Community Chest / Chance / plain), with
`to_square = (i + r) % 40`.  Each `+=` of the source appears as one
indicator summand, so coinciding destination columns (as happens for
Chance at square 36, where the "advance to Kings Cross" card and the
nearest-station card both target square 5) accumulate additively just as
in the source. -/
def rollContrib (i r j : ℕ) : ℚ :=
  let to_square := (i + r) % BOARD_SIZE
  let p := dice_probs r
  if to_square = GO_TO_JAIL_SQUARE then
    (if j = JAIL_SQUARE then p else 0)
  else if to_square ∈ COMMUNITY_CHEST then
    (if j = to_square then p * 14/16 else 0)
    + (if j = 0 then p * 1/16 else 0)
    + (if j = JAIL_SQUARE then p * 1/16 else 0)
  else if to_square ∈ CHANCE then
    (if j = to_square then p * 6/16 else 0)
    + (if j = 0 then p * 1/16 else 0)
    + (if j = 24 then p * 1/16 else 0)
    + (if j = 39 then p * 1/16 else 0)
    + (if j = 11 then p * 1/16 else 0)
    + (if j = 5 then p * 1/16 else 0)
    + (if j = JAIL_SQUARE then p * 1/16 else 0)
    + (if j = (to_square - 3) % BOARD_SIZE then p * 1/16 else 0)
    + (if j = nearest_station to_square then p * 1/8 else 0)
    + (if j = nearest_utility to_square then p * 1/16 else 0)
  else
    (if j = to_square then p else 0)

/-- `generate_transition_matrix`: entry `(i, j)` of the constructed matrix —
the total accumulated into the cell by the nested
`for from_square: for roll in range(2, 13):` loop, i.e. the sum over the
eleven roll iterations of that iteration's two increments. -/
def transition_matrix (i j : ℕ) : ℚ :=
  ∑ r in Finset.Icc 2 12, (doublesContrib i r j + rollContrib i r j)

/-- The sum of row `i` of the constructed matrix. -/
def rowSum (i : ℕ) : ℚ := ∑ j in Finset.range BOARD_SIZE, transition_matrix i j

/-- Inverse-CDF search: starting at index `start` with residual draw `u`,
walk forward through `fuel` candidate indices, stopping at the first index
whose probability exceeds the residual; if the search exhausts its fuel the
current index is returned (for a row of total mass 1 and a draw in `[0,1)`
the fallback index 39 receives exactly the leftover tail mass, so this is
the standard categorical draw used by `np.random.choice`). -/
def pickFrom (row : ℕ → ℚ) : ℚ → ℕ → ℕ → ℕ
  | _, start, 0 => start
  | u, start, fuel + 1 =>
    if u < row start then start else pickFrom row (u - row start) (start + 1) fuel

/-- Draw one square index from the distribution `row` using the uniform
draw `u`: inverse-CDF search over indices 0..38 with fallback index 39. -/
def pick (row : ℕ → ℚ) (u : ℚ) : ℕ := pickFrom row u 0 39

/-- The mutable state of `MonopolySimulation`: current position, landing
counters (keyed here by square index — the 40 square names are pairwise
distinct, see `board_spaces_nodup`, so name-keying and index-keying are
equivalent), the snapshot history, the move counter and the transition
matrix built at construction time. -/
structure SimState where
  current_position : ℕ
  landings : ℕ → ℕ
  move_history : List (ℕ → ℕ)
  moves_count : ℕ
  matrix : ℕ → ℕ → ℚ

/-- `MonopolySimulation.__init__`: position 0, empty counters, empty
history, zero moves, matrix freshly generated. -/
def initState : SimState :=
  { current_position := 0
    landings := fun _ => 0
    move_history := []
    moves_count := 0
    matrix := transition_matrix }

/-- `MonopolySimulation.move`, driven by the uniform draw `u` of this
step's call to the pseudo-random source: read the current row, re-normalize
it by its sum, draw the next square by inverse-CDF search, update position
and landing counter, bump the move counter, and snapshot the counters when
the new counter is a multiple of 100. -/
def move (u : ℚ) (st : SimState) : SimState :=
  let row := fun j => st.matrix st.current_position j
  let total := ∑ j in Finset.range BOARD_SIZE, row j
  let nrow := fun j => row j / total
  let next := pick nrow u
  let landings2 := fun j => if j = next then st.landings j + 1 else st.landings j
  let mc := st.moves_count + 1
  { current_position := next
    landings := landings2
    move_history :=
      if mc % 100 = 0 then st.move_history ++ [landings2] else st.move_history
    moves_count := mc
    matrix := st.matrix }

/-- `run_simulation`'s loop: the state after `n` calls to `move`, starting
from the freshly constructed state, where call `k` consumes draw `us k`
from the pseudo-random stream `us`. -/
def runSim (us : ℕ → ℚ) : ℕ → SimState
  | 0 => initState
  | n + 1 => move (us n) (runSim us n)

/-- Total landing count over all 40 squares. -/
def totalLandings (st : SimState) : ℕ :=
  ∑ j in Finset.range BOARD_SIZE, st.landings j

/-- The 40 board-square names are pairwise distinct, so the name-keyed
`defaultdict` of the source and the index-keyed counters of `SimState`
are in bijection. -/
theorem board_spaces_nodup : board_spaces.Nodup ∧ board_spaces.length = 40 := by
  constructor <;> decide

/-- Square 30 is named "Go To Jail". -/
theorem board_spaces_30 : board_spaces.getD 30 "" = "Go To Jail" := by decide

/-! ### Mass accounting for the matrix construction -/

/-- Nearest-station values at the three Chance squares: after square 36 no
station remains and the search wraps to station 5. -/
lemma nearest_station_vals :
    nearest_station 7 = 15 ∧ nearest_station 22 = 25 ∧ nearest_station 36 = 5 := by
  refine ⟨?_, ?_, ?_⟩ <;> rfl

/-- Nearest-utility values at the three Chance squares: after square 36 no
utility remains and the search wraps to utility 12. -/
lemma nearest_utility_vals :
    nearest_utility 7 = 12 ∧ nearest_utility 22 = 28 ∧ nearest_utility 36 = 12 := by
  refine ⟨?_, ?_, ?_⟩ <;> rfl

/-- The dice distribution carries total mass 1 over the achievable rolls
2..12: every one of the 36 dice pairs has its sum in that range. -/
lemma dice_sum_one : ∑ r in Finset.Icc 2 12, dice_probs r = 1 := by
  unfold dice_probs
  rw [← Finset.sum_div]
  rw [Finset.sum_comm]
  have h1 : ∀ d1 ∈ Finset.Icc 1 6,
      (∑ r in Finset.Icc 2 12, ∑ d2 in Finset.Icc 1 6,
        if d1 + d2 = r then (1 : ℚ) else 0)
      = ∑ d2 in Finset.Icc 1 6, ∑ r in Finset.Icc 2 12,
          (if d1 + d2 = r then (1 : ℚ) else 0) := by
    intro d1 _
    exact Finset.sum_comm
  rw [Finset.sum_congr rfl h1]
  have h2 : ∀ d1 ∈ Finset.Icc 1 6, ∀ d2 ∈ Finset.Icc 1 6,
      (∑ r in Finset.Icc 2 12, if d1 + d2 = r then (1 : ℚ) else 0) = 1 := by
    intro d1 hd1 d2 hd2
    rw [Finset.sum_ite_eq]
    rw [Finset.mem_Icc] at hd1 hd2
    have hm : d1 + d2 ∈ Finset.Icc 2 12 := by
      rw [Finset.mem_Icc]; omega
    simp [hm]
  rw [Finset.sum_congr rfl (fun d1 hd1 => Finset.sum_congr rfl (h2 d1 hd1))]
  simp [Nat.card_Icc]
  norm_num

/-- Each roll iteration's dice-destination increments conserve the roll's
probability: summed over all 40 columns they total `dice_probs r`, whatever
branch (Go-To-Jail, Community Chest, Chance, plain) the destination takes. -/
lemma rollContrib_sum (i r : ℕ) :
    ∑ j in Finset.range BOARD_SIZE, rollContrib i r j = dice_probs r := by
  have hd : (i + r) % BOARD_SIZE < BOARD_SIZE :=
    Nat.mod_lt _ (by norm_num [BOARD_SIZE])
  by_cases h30 : (i + r) % BOARD_SIZE = GO_TO_JAIL_SQUARE
  · simp only [rollContrib, h30, if_true]
    rw [Finset.sum_ite_eq']
    norm_num [BOARD_SIZE, JAIL_SQUARE]
  · by_cases hcc : (i + r) % BOARD_SIZE ∈ COMMUNITY_CHEST
    · have hd3 : (i + r) % BOARD_SIZE = 2 ∨ (i + r) % BOARD_SIZE = 17 ∨
          (i + r) % BOARD_SIZE = 33 := by
        simpa [COMMUNITY_CHEST] using hcc
      rcases hd3 with h | h | h <;>
      · simp only [rollContrib]
        rw [h]
        norm_num [GO_TO_JAIL_SQUARE, JAIL_SQUARE, COMMUNITY_CHEST, CHANCE,
          BOARD_SIZE, Finset.sum_add_distrib, Finset.sum_ite_eq']
        ring
    · by_cases hch : (i + r) % BOARD_SIZE ∈ CHANCE
      · have hd3 : (i + r) % BOARD_SIZE = 7 ∨ (i + r) % BOARD_SIZE = 22 ∨
            (i + r) % BOARD_SIZE = 36 := by
          simpa [CHANCE] using hch
        rcases hd3 with h | h | h <;>
        · simp only [rollContrib]
          rw [h]
          norm_num [GO_TO_JAIL_SQUARE, JAIL_SQUARE, COMMUNITY_CHEST, CHANCE,
            BOARD_SIZE, nearest_station, nearest_utility, STATIONS, UTILITIES,
            List.find?, Finset.sum_add_distrib, Finset.sum_ite_eq']
          ring
      · simp only [rollContrib, h30, hcc, hch, if_false]
        rw [Finset.sum_ite_eq']
        simp [Finset.mem_range, hd]

/-- The triple-doubles increment of one roll iteration sums, over all 40
columns, to `(1/12)^3` for origins other than 30 and to `0` for origin 30
(it only ever touches column 10). -/
lemma doublesContrib_sum (i r : ℕ) :
    ∑ j in Finset.range BOARD_SIZE, doublesContrib i r j
      = if i = GO_TO_JAIL_SQUARE then 0 else (1/12 : ℚ)^3 := by
  by_cases h : i = GO_TO_JAIL_SQUARE
  · simp [doublesContrib, h]
  · have he : ∀ j ∈ Finset.range BOARD_SIZE, doublesContrib i r j
        = if j = JAIL_SQUARE then (1/12 : ℚ)^3 else 0 := by
    
      intro j _
      simp [doublesContrib, h]
    rw [Finset.sum_congr rfl he, Finset.sum_ite_eq']
    norm_num [BOARD_SIZE, JAIL_SQUARE, h]

/-- Exact row sums of the constructed matrix: row 30 sums to 1, every other
row to `1739/1728 = 1 + 11 * (1/12)^3`. -/
lemma rowSum_eq (i : ℕ) :
    rowSum i = if i = GO_TO_JAIL_SQUARE then 1 else 1739/1728 := by
  unfold rowSum transition_matrix
  rw [Finset.sum_comm]
  have h1 : ∀ r ∈ Finset.Icc 2 12,
      (∑ j in Finset.range BOARD_SIZE, (doublesContrib i r j + rollContrib i r j))
      = (if i = GO_TO_JAIL_SQUARE then 0 else (1/12 : ℚ)^3) + dice_probs r := by
    intro r _
    rw [Finset.sum_add_distrib, doublesContrib_sum, rollContrib_sum]
  rw [Finset.sum_congr rfl h1, Finset.sum_add_distrib, dice_sum_one,
    Finset.sum_const, Nat.card_Icc]
  by_cases h : i = GO_TO_JAIL_SQUARE
  · simp [h]
  · simp only [h, if_false]
    norm_num

/-- No roll iteration ever writes into column 30: a raw destination of 30
takes the Go-To-Jail branch, and none of the card destinations (including
back-three, nearest station and nearest utility from any Chance square) is
square 30. -/
lemma rollContrib_col30 (i r : ℕ) : rollContrib i r 30 = 0 := by
  by_cases h30 : (i + r) % BOARD_SIZE = GO_TO_JAIL_SQUARE
  · simp [rollContrib, h30, JAIL_SQUARE]
  · by_cases hcc : (i + r) % BOARD_SIZE ∈ COMMUNITY_CHEST
    · have hd3 : (i + r) % BOARD_SIZE = 2 ∨ (i + r) % BOARD_SIZE = 17 ∨
          (i + r) % BOARD_SIZE = 33 := by
        simpa [COMMUNITY_CHEST] using hcc
      rcases hd3 with h | h | h <;>
      · simp only [rollContrib]
        rw [h]
        norm_num [GO_TO_JAIL_SQUARE, JAIL_SQUARE, COMMUNITY_CHEST, CHANCE]
    · by_cases hch : (i + r) % BOARD_SIZE ∈ CHANCE
      · have hd3 : (i + r) % BOARD_SIZE = 7 ∨ (i + r) % BOARD_SIZE = 22 ∨
            (i + r) % BOARD_SIZE = 36 := by
          simpa [CHANCE] using hch
        rcases hd3 with h | h | h <;>
        · simp only [rollContrib]
          rw [h]
          norm_num [GO_TO_JAIL_SQUARE, JAIL_SQUARE, COMMUNITY_CHEST, CHANCE,
            BOARD_SIZE, nearest_station, nearest_utility, STATIONS, UTILITIES,
            List.find?]
      · simp only [rollContrib]
        rw [if_neg h30, if_neg hcc, if_neg hch, if_neg]
        intro hc
        exact h30 hc.symm

/-- Column 30 of the constructed matrix is identically zero: the doubles
term targets column 10 and no roll branch targets column 30. -/
lemma transition_matrix_col30 (i : ℕ) : transition_matrix i 30 = 0 := by
  unfold transition_matrix
  have h : ∀ r ∈ Finset.Icc 2 12,
      doublesContrib i r 30 + rollContrib i r 30 = 0 := by
    intro r _
    rw [rollContrib_col30]
    simp [doublesContrib, JAIL_SQUARE]
  rw [Finset.sum_congr rfl h]
  simp

/-! ### The inverse-CDF draw -/

/-- The search never runs past its fuel. -/
lemma pickFrom_le (row : ℕ → ℚ) :
    ∀ (fuel : ℕ) (u : ℚ) (start : ℕ), pickFrom row u start fuel ≤ start + fuel := by
  intro fuel
  induction fuel with
  | zero => intro u start; simp [pickFrom]
  | succ fuel ih =>
    intro u start
    rw [pickFrom]
    split
    · omega
    · have := ih (u - row start) (start + 1)
      omega

/-- A successful search (one that does not fall back by exhausting its
fuel) lands on an index of positive probability, provided the residual
draw is non-negative. -/
lemma pickFrom_pos (row : ℕ → ℚ) :
    ∀ (fuel : ℕ) (u : ℚ), 0 ≤ u → ∀ start : ℕ,
      pickFrom row u start fuel = start + fuel ∨ 0 < row (pickFrom row u start fuel) := by
  intro fuel
  induction fuel with
  | zero => intro u _ start; left; simp [pickFrom]
  | succ fuel ih =>
    intro u hu start
    rw [pickFrom]
    split
    · right
      rename_i hlt
      exact lt_of_le_of_lt hu hlt
    · rename_i hge
      have hu2 : 0 ≤ u - row start := by
        rw [not_lt] at hge
        linarith
      rcases ih (u - row start) hu2 (start + 1) with h | h
      · left; omega
      · right; exact h

/-- The categorical draw always lands on the board. -/
lemma pick_le (row : ℕ → ℚ) (u : ℚ) : pick row u ≤ 39 := by
  have := pickFrom_le row 39 u 0
  simpa [pick] using this

/-- With a non-negative draw, the categorical draw is either the fallback
index 39 or an index carrying positive probability. -/
lemma pick_pos (row : ℕ → ℚ) (u : ℚ) (hu : 0 ≤ u) :
    pick row u = 39 ∨ 0 < row (pick row u) := by
  have := pickFrom_pos row 39 u hu 0
  simpa [pick] using this

/-! ### Simulation invariants -/

/-- `move` leaves the transition matrix untouched. -/
lemma move_matrix (u : ℚ) (st : SimState) : (move u st).matrix = st.matrix := rfl

/-- After any number of moves the state still holds the matrix built at
construction time. -/
lemma runSim_matrix (us : ℕ → ℚ) (N : ℕ) :
    (runSim us N).matrix = transition_matrix := by
  induction N with
  | zero => rfl
  | succ N ih => rw [runSim, move_matrix, ih]

/-- The move counter counts the moves. -/
lemma runSim_moves_count (us : ℕ → ℚ) (N : ℕ) :
    (runSim us N).moves_count = N := by
  induction N with
  | zero => rfl
  | succ N ih =>
    show (move (us N) (runSim us N)).moves_count = N + 1
    simp [move, ih]

/-- One move adds exactly one landing in total: the drawn square is always
on the board, so the bumped counter is inside the 40-square total. -/
lemma move_totalLandings (u : ℚ) (st : SimState) :
    totalLandings (move u st) = totalLandings st + 1 := by
  unfold totalLandings move
  have hnext : pick (fun j => st.matrix st.current_position j /
      ∑ j in Finset.range BOARD_SIZE, st.matrix st.current_position j) u ≤ 39 :=
    pick_le _ _
  set q := pick (fun j => st.matrix st.current_position j /
      ∑ j in Finset.range BOARD_SIZE, st.matrix st.current_position j) u with hq
  have h1 : ∀ j ∈ Finset.range BOARD_SIZE,
      (if j = q then st.landings j + 1 else st.landings j)
      = st.landings j + (if j = q then 1 else 0) := by
    intro j _
    split <;> simp
  rw [Finset.sum_congr rfl h1, Finset.sum_add_distrib, Finset.sum_ite_eq']
  have : q ∈ Finset.range BOARD_SIZE := Finset.mem_range.mpr (by
    norm_num [BOARD_SIZE]; omega)
  simp [this]

/-- `move` never decreases any landing counter. -/
lemma move_landings_le (u : ℚ) (st : SimState) (j : ℕ) :
    st.landings j ≤ (move u st).landings j := by
  simp only [move]
  split <;> omega

/-- After `N` moves the landing counters total exactly `N`. -/
lemma runSim_totalLandings (us : ℕ → ℚ) (N : ℕ) :
    totalLandings (runSim us N) = N := by
  induction N with
  | zero => simp [runSim, initState, totalLandings]
  | succ N ih => rw [runSim, move_totalLandings, ih]

/-- After `N` moves the snapshot history has `N / 100` entries: the move
that brings the counter to a multiple of 100 appends one snapshot. -/
lemma runSim_history_length (us : ℕ → ℚ) (N : ℕ) :
    (runSim us N).move_history.length = N / 100 := by
  induction N with
  | zero => rfl
  | succ N ih =>
    show (move (us N) (runSim us N)).move_history.length = (N + 1) / 100
    rw [Nat.succ_div]
    simp only [move, runSim_moves_count]
    by_cases h : (N + 1) % 100 = 0
    · have hdvd : 100 ∣ N + 1 := by omega
      simp [h, hdvd, ih]
    · have hdvd : ¬ 100 ∣ N + 1 := by omega
      simp [h, hdvd, ih]

/-- One move either leaves the history alone or appends the updated
counters as a snapshot. -/
lemma move_history_cases (u : ℚ) (st : SimState) :
    (move u st).move_history = st.move_history
    ∨ (move u st).move_history = st.move_history ++ [(move u st).landings] := by
  simp only [move]
  split
  · right; rfl
  · left; rfl

/-- One move preserves the snapshot invariant: the history stays a
pointwise non-decreasing chain whose entries are all bounded by the live
counters. -/
lemma move_history_chain (u : ℚ) (st : SimState)
    (hchain : List.Chain' (fun f g : ℕ → ℕ => ∀ j, f j ≤ g j) st.move_history)
    (hbound : ∀ f ∈ st.move_history, ∀ j, f j ≤ st.landings j) :
    List.Chain' (fun f g : ℕ → ℕ => ∀ j, f j ≤ g j) (move u st).move_history
    ∧ ∀ f ∈ (move u st).move_history, ∀ j, f j ≤ (move u st).landings j := by
  have hL : ∀ j, st.landings j ≤ (move u st).landings j := move_landings_le u st
  rcases move_history_cases u st with h | h <;> rw [h]
  · exact ⟨hchain, fun f hf j => le_trans (hbound f hf j) (hL j)⟩
  · constructor
    · rw [List.chain'_append]
      refine ⟨hchain, List.chain'_singleton _, ?_⟩
      intro x hx y hy
      simp only [List.head?_cons, Option.mem_def, Option.some.injEq] at hy
      subst hy
      intro j
      exact le_trans (hbound x (List.mem_of_mem_getLast? hx) j) (hL j)
    · intro f hf j
      rcases List.mem_append.mp hf with hm | hm
      · exact le_trans (hbound f hm j) (hL j)
      · simp only [List.mem_singleton] at hm
        subst hm
        exact le_rfl

/-- Every snapshot in the history is pointwise bounded by the live
counters, and consecutive snapshots are pointwise non-decreasing. -/
lemma runSim_history_chain (us : ℕ → ℚ) (N : ℕ) :
    List.Chain' (fun f g : ℕ → ℕ => ∀ j, f j ≤ g j) (runSim us N).move_history
    ∧ ∀ f ∈ (runSim us N).move_history, ∀ j, f j ≤ (runSim us N).landings j := by
  induction N with
  | zero => exact ⟨List.chain'_nil, by simp [runSim, initState]⟩
  | succ N ih => exact move_history_chain (us N) (runSim us N) ih.1 ih.2

/-- The square drawn by `move` is the inverse-CDF draw on the re-normalized
current row. -/
lemma move_position (u : ℚ) (st : SimState) :
    (move u st).current_position
      = pick (fun j => st.matrix st.current_position j /
          ∑ k in Finset.range BOARD_SIZE, st.matrix st.current_position k) u := rfl

/-- `move` bumps exactly the landing counter of the drawn square. -/
lemma move_landings_at (u : ℚ) (st : SimState) (j : ℕ) :
    (move u st).landings j
      = if j = (move u st).current_position then st.landings j + 1
        else st.landings j := rfl

/-- With non-negative draws the walk never stands on square 30 and its
landing counter for square 30 stays 0: column 30 of the matrix is zero, so
the re-normalized row gives square 30 probability 0, and the inverse-CDF
draw only returns indices of positive probability (or the fallback 39). -/
lemma runSim_avoid30 (us : ℕ → ℚ) (hu : ∀ n, 0 ≤ us n) (N : ℕ) :
    (runSim us N).current_position ≠ 30 ∧ (runSim us N).landings 30 = 0 := by
  induction N with
  | zero => exact ⟨by simp [runSim, initState], rfl⟩
  | succ N ih =>
    have hmat := runSim_matrix us N
    have hpos : (runSim us (N + 1)).current_position ≠ 30 := by
      show (move (us N) (runSim us N)).current_position ≠ 30
      rw [move_position]
      rcases pick_pos (fun j => (runSim us N).matrix (runSim us N).current_position j /
          ∑ k in Finset.range BOARD_SIZE, (runSim us N).matrix (runSim us N).current_position k)
          (us N) (hu N) with h | h
      · rw [h]; norm_num
      · intro hc
        rw [hc, hmat, transition_matrix_col30, zero_div] at h
        exact lt_irrefl 0 h
    refine ⟨hpos, ?_⟩
    show (move (us N) (runSim us N)).landings 30 = 0
    rw [move_landings_at, if_neg (fun hc => hpos (hc.symm))]
    exact ih.2

/-! ### The claims -/

/-- C1: the spec and the in-code comment ("Ensure probabilities sum to 1,
handle any floating point precision issues") claim each constructed row
sums to 1 within a small tolerance such as `1e-9`.  The code violates
this: row 0 sums to exactly `1739/1728`, which is `11/1728 ≈ 6.4e-3` away
from 1 — the triple-doubles term is added eleven times per row, far
outside any floating-point tolerance. -/
theorem C1_row_sum_tolerance_violated :
    rowSum 0 = 1739/1728 ∧ ¬ |rowSum 0 - 1| ≤ 1/1000000000 := by
  have h := rowSum_eq 0
  rw [if_neg (by norm_num [GO_TO_JAIL_SQUARE])] at h
  refine ⟨h, ?_⟩
  rw [h, show (1739 : ℚ)/1728 - 1 = 11/1728 by norm_num,
    abs_of_nonneg (by norm_num : (0 : ℚ) ≤ 11/1728)]
  norm_num

/-- C2: the constant `(1/12)^3` is added to `matrix[i][10]` once per roll
value `r` in 2..12 — eleven times in total, accumulating
`11 * (1/12)^3` — for every origin `i` other than square 30, and the
triple-doubles line never adds anything for origin 30. -/
theorem C2_doubles_added_once_per_roll (i : ℕ) (_hi : i < BOARD_SIZE) :
    (i ≠ GO_TO_JAIL_SQUARE →
      (∀ r ∈ Finset.Icc 2 12, doublesContrib i r JAIL_SQUARE = (1/12 : ℚ)^3)
      ∧ (Finset.Icc 2 12).card = 11
      ∧ ∑ r in Finset.Icc 2 12, doublesContrib i r JAIL_SQUARE = 11 * (1/12 : ℚ)^3)
    ∧ (i = GO_TO_JAIL_SQUARE → ∀ r j, doublesContrib i r j = 0) := by
  constructor
  · intro hne
    have hv : ∀ r ∈ Finset.Icc 2 12, doublesContrib i r JAIL_SQUARE = (1/12 : ℚ)^3 :=
      fun r _ => by simp [doublesContrib, hne]
    refine ⟨hv, by rw [Nat.card_Icc], ?_⟩
    rw [Finset.sum_congr rfl hv, Finset.sum_const, Nat.card_Icc]
    norm_num
  · intro h30 r j
    simp [doublesContrib, h30]

/-- Witness for C2 at origin 0 and roll 5. -/
theorem C2_doubles_added_once_per_roll_witness :
    doublesContrib 0 5 JAIL_SQUARE = (1/12 : ℚ)^3 :=
  ((C2_doubles_added_once_per_roll 0 (by norm_num [BOARD_SIZE])).1
    (by norm_num [GO_TO_JAIL_SQUARE])).1 5 (by decide)

/-- C3: after `N` calls to `move` from the fresh state, the landing
counters total exactly `N`, the history holds `⌊N/100⌋` snapshots, and
each snapshot is a pointwise non-decreasing superset of the previous one
(counts never drop and a square once present stays present). -/
theorem C3_sampler_invariants (us : ℕ → ℚ) (N : ℕ) :
    totalLandings (runSim us N) = N
    ∧ (runSim us N).move_history.length = N / 100
    ∧ List.Chain' (fun f g : ℕ → ℕ => ∀ j, f j ≤ g j ∧ (0 < f j → 0 < g j))
        (runSim us N).move_history :=
  ⟨runSim_totalLandings us N, runSim_history_length us N,
    (runSim_history_chain us N).1.imp
      (fun _f _g h j => ⟨h j, fun hp => lt_of_lt_of_le hp (h j)⟩)⟩

/-- C4: a roll whose raw destination `d` is a Chance square distributes its
probability exactly as 6/16 staying, 1/16 each to GO, 24, 39, 11, 5, Jail
and three-back, 1/8 to the nearest station strictly after `d` (wrapping to
station 5 past the board end) and 1/16 to the nearest utility strictly
after `d` (wrapping to utility 12); nothing leaks to any other column and
the pieces re-assemble to the full roll probability. -/
theorem C4_chance_split (i r : ℕ) (_hr1 : 2 ≤ r) (_hr2 : r ≤ 12) (d : ℕ)
    (hd : d = (i + r) % BOARD_SIZE) (hch : d = 7 ∨ d = 22 ∨ d = 36) :
    (∀ j, rollContrib i r j
        = (if j = d then dice_probs r * 6/16 else 0)
        + (if j = 0 then dice_probs r * 1/16 else 0)
        + (if j = 24 then dice_probs r * 1/16 else 0)
        + (if j = 39 then dice_probs r * 1/16 else 0)
        + (if j = 11 then dice_probs r * 1/16 else 0)
        + (if j = 5 then dice_probs r * 1/16 else 0)
        + (if j = JAIL_SQUARE then dice_probs r * 1/16 else 0)
        + (if j = (d - 3) % BOARD_SIZE then dice_probs r * 1/16 else 0)
        + (if j = nearest_station d then dice_probs r * 1/8 else 0)
        + (if j = nearest_utility d then dice_probs r * 1/16 else 0))
    ∧ (∀ j, j ≠ d → j ≠ 0 → j ≠ 24 → j ≠ 39 → j ≠ 11 → j ≠ 5 → j ≠ JAIL_SQUARE →
        j ≠ (d - 3) % BOARD_SIZE → j ≠ nearest_station d → j ≠ nearest_utility d →
        rollContrib i r j = 0)
    ∧ (∑ j in Finset.range BOARD_SIZE, rollContrib i r j = dice_probs r)
    ∧ (d = 7 → nearest_station d = 15 ∧ nearest_utility d = 12)
    ∧ (d = 22 → nearest_station d = 25 ∧ nearest_utility d = 28)
    ∧ (d = 36 → nearest_station d = 5 ∧ nearest_utility d = 12) := by
  subst hd
  refine ⟨?_, ?_, rollContrib_sum i r, ?_, ?_, ?_⟩
  · intro j
    rcases hch with h | h | h <;>
    · simp only [rollContrib]
      rw [h]
      norm_num [GO_TO_JAIL_SQUARE, COMMUNITY_CHEST, CHANCE, JAIL_SQUARE]
  · intro j h1 h2 h3 h4 h5 h6 h7 h8 h9 h10
    rcases hch with h | h | h <;>
    · rw [h] at h1 h8 h9 h10
      simp only [rollContrib]
      rw [h]
      norm_num [JAIL_SQUARE, BOARD_SIZE, nearest_station, nearest_utility,
        STATIONS, UTILITIES, List.find?] at h7 h8 h9 h10
      norm_num [GO_TO_JAIL_SQUARE, COMMUNITY_CHEST, CHANCE, JAIL_SQUARE,
        BOARD_SIZE, nearest_station, nearest_utility, STATIONS, UTILITIES,
        List.find?, h1, h2, h3, h4, h5, h6, h7, h8, h9, h10]
  · intro hc
    rw [hc]
    exact ⟨rfl, rfl⟩
  · intro hc
    rw [hc]
    exact ⟨rfl, rfl⟩
  · intro hc
    rw [hc]
    exact ⟨rfl, rfl⟩

/-- Witness for C4 at origin 0, roll 7 (raw destination 7, a Chance
square): the redistributed pieces re-assemble to the roll probability. -/
theorem C4_chance_split_witness :
    ∑ j in Finset.range BOARD_SIZE, rollContrib 0 7 j = dice_probs 7 :=
  (C4_chance_split 0 7 (by norm_num) (by norm_num) 7
    (by norm_num [BOARD_SIZE]) (by norm_num)).2.2.1

/-- C5: a roll whose raw destination `d` is a Community-Chest square
splits its probability exactly as 14/16 staying on `d`, 1/16 to GO and
1/16 to Jail, with no mass on any other column. -/
theorem C5_community_chest_split (i r : ℕ) (_hr1 : 2 ≤ r) (_hr2 : r ≤ 12) (d : ℕ)
    (hd : d = (i + r) % BOARD_SIZE) (hcc : d = 2 ∨ d = 17 ∨ d = 33) :
    rollContrib i r d = dice_probs r * 14/16
    ∧ rollContrib i r 0 = dice_probs r * 1/16
    ∧ rollContrib i r JAIL_SQUARE = dice_probs r * 1/16
    ∧ (∀ j, j ≠ d → j ≠ 0 → j ≠ JAIL_SQUARE → rollContrib i r j = 0)
    ∧ ∑ j in Finset.range BOARD_SIZE, rollContrib i r j = dice_probs r := by
  subst hd
  refine ⟨?_, ?_, ?_, ?_, rollContrib_sum i r⟩
  · rcases hcc with h | h | h <;>
    · simp only [rollContrib]
      rw [h]
      norm_num [GO_TO_JAIL_SQUARE, COMMUNITY_CHEST, CHANCE, JAIL_SQUARE]
  · rcases hcc with h | h | h <;>
    · simp only [rollContrib]
      rw [h]
      norm_num [GO_TO_JAIL_SQUARE, COMMUNITY_CHEST, CHANCE, JAIL_SQUARE]
  · rcases hcc with h | h | h <;>
    · simp only [rollContrib]
      rw [h]
      norm_num [GO_TO_JAIL_SQUARE, COMMUNITY_CHEST, CHANCE, JAIL_SQUARE]
  · intro j h1 h2 h3
    rcases hcc with h | h | h <;>
    · rw [h] at h1
      simp only [rollContrib]
      rw [h]
      norm_num [JAIL_SQUARE] at h3
      norm_num [GO_TO_JAIL_SQUARE, COMMUNITY_CHEST, CHANCE, JAIL_SQUARE,
        h1, h2, h3]

/-- Witness for C5 at origin 0, roll 2 (raw destination 2, a
Community-Chest square). -/
theorem C5_community_chest_split_witness :
    rollContrib 0 2 2 = dice_probs 2 * 14/16 :=
  (C5_community_chest_split 0 2 (by norm_num) (by norm_num) 2
    (by norm_num [BOARD_SIZE]) (by norm_num)).1

/-- C6: a roll whose raw destination is square 30 ("Go To Jail") sends its
full probability to Jail (column 10) and none of it to column 30 or any
other column. -/
theorem C6_go_to_jail_redirect (i r : ℕ) (_hr1 : 2 ≤ r) (_hr2 : r ≤ 12)
    (h30 : (i + r) % BOARD_SIZE = GO_TO_JAIL_SQUARE) :
    rollContrib i r JAIL_SQUARE = dice_probs r
    ∧ rollContrib i r GO_TO_JAIL_SQUARE = 0
    ∧ (∀ j, j ≠ JAIL_SQUARE → rollContrib i r j = 0) := by
  refine ⟨?_, ?_, ?_⟩
  · simp [rollContrib, h30]
  · simp [rollContrib, h30, JAIL_SQUARE, GO_TO_JAIL_SQUARE]
  · intro j hj
    simp [rollContrib, h30, hj]

/-- Witness for C6 at origin 18, roll 12 (raw destination 30). -/
theorem C6_go_to_jail_redirect_witness :
    rollContrib 18 12 JAIL_SQUARE = dice_probs 12 :=
  (C6_go_to_jail_redirect 18 12 (by norm_num) (by norm_num)
    (by norm_num [BOARD_SIZE, GO_TO_JAIL_SQUARE])).1

/-- C7: the simulation is a deterministic function of the pseudo-random
stream: two runs whose streams agree on the first `N` draws pass through
identical states — same visited positions, same landing counters, same
snapshot history — at every step up to `N`. -/
theorem C7_same_seed_deterministic (us vs : ℕ → ℚ) (N : ℕ)
    (h : ∀ n, n < N → us n = vs n) :
    ∀ k, k ≤ N → runSim us k = runSim vs k := by
  intro k
  induction k with
  | zero => intro _; rfl
  | succ k ih =>
    intro hk
    show move (us k) (runSim us k) = move (vs k) (runSim vs k)
    rw [ih (by omega), h k (by omega)]

/-- Witness for C7: two streams that agree on the first three draws (one
of them differing afterwards) generate the same state after three moves. -/
theorem C7_same_seed_deterministic_witness :
    runSim (fun _ => (1 : ℚ)/2) 3
      = runSim (fun n => if n < 3 then (1 : ℚ)/2 else 0) 3 :=
  C7_same_seed_deterministic (fun _ => (1 : ℚ)/2)
    (fun n => if n < 3 then (1 : ℚ)/2 else 0) 3
    (fun n hn => by
      show (1 : ℚ)/2 = if n < 3 then (1 : ℚ)/2 else 0
      rw [if_pos hn]) 3 le_rfl

/-- C8: `move` never writes to the transition matrix — the re-normalized
row it samples from is a fresh value — so after any number of moves every
entry still equals its as-constructed value. -/
theorem C8_matrix_immutable :
    (∀ (u : ℚ) (st : SimState), (move u st).matrix = st.matrix)
    ∧ ∀ (us : ℕ → ℚ) (N i j : ℕ),
        (runSim us N).matrix i j = transition_matrix i j :=
  ⟨move_matrix, fun us N i j => by rw [runSim_matrix]⟩

/-- C9: column 30 of the matrix is identically zero, so (with the
non-negative uniform draws the random source produces) the walk never
stands on square 30 and the "Go To Jail" landing counter stays 0. -/
theorem C9_go_to_jail_unreachable (us : ℕ → ℚ) (hu : ∀ n, 0 ≤ us n) (N : ℕ) :
    (∀ i, i < BOARD_SIZE → transition_matrix i GO_TO_JAIL_SQUARE = 0)
    ∧ (runSim us N).current_position ≠ GO_TO_JAIL_SQUARE
    ∧ (runSim us N).landings GO_TO_JAIL_SQUARE = 0 :=
  ⟨fun i _ => transition_matrix_col30 i,
    (runSim_avoid30 us hu N).1, (runSim_avoid30 us hu N).2⟩

/-- Witness for C9 with the constant stream 1/2 after five moves. -/
theorem C9_go_to_jail_unreachable_witness :
    (runSim (fun _ => (1 : ℚ)/2) 5).landings GO_TO_JAIL_SQUARE = 0 :=
  (C9_go_to_jail_unreachable (fun _ => (1 : ℚ)/2) (fun _ => by norm_num) 5).2.2

/-- C10: in exact rational arithmetic every per-roll split conserves the
roll's probability and the dice distribution has total mass 1, so row 30
sums to exactly 1 and every other row to exactly
`1 + 11 * (1/12)^3 = 1739/1728`. -/
theorem C10_exact_row_sums (i : ℕ) (_hi : i < BOARD_SIZE) :
    (∀ r, ∑ j in Finset.range BOARD_SIZE, rollContrib i r j = dice_probs r)
    ∧ (∑ r in Finset.Icc 2 12, dice_probs r = 1)
    ∧ rowSum i = (if i = GO_TO_JAIL_SQUARE then 1 else 1 + 11 * (1/12 : ℚ)^3)
    ∧ ((1 : ℚ) + 11 * (1/12 : ℚ)^3 = 1739/1728) := by
  refine ⟨fun r => rollContrib_sum i r, dice_sum_one, ?_, by norm_num⟩
  rw [rowSum_eq]
  split <;> norm_num

/-- Witness for C10 at row 0. -/
theorem C10_exact_row_sums_witness :
    rowSum 0 = (if (0 : ℕ) = GO_TO_JAIL_SQUARE then 1 else 1 + 11 * (1/12 : ℚ)^3) :=
  (C10_exact_row_sums 0 (by norm_num [BOARD_SIZE])).2.2.1
